import Mathlib

/-!
# femus : `GmresPetscLinearEquationSolver`

A shallow embedding of `include/algebra/GmresPetscLinearEquationSolver.hpp`:
the data members of the class, its inline constructor and its inline
destructor, followed by the properties established about them.

Conventions of the embedding.

* `unsigned` is a 32-bit natural number; where the source computes with it
  (`5 - dim`, the loop counter `i++`) the result is reduced modulo `2 ^ 32`.
  `std::vector::size()` is a `size_t`, which on the 64-bit targets of the
  library is wider than `unsigned`, so the length of a vector is not bounded
  by `2 ^ 32`.
* `PetscReal` members hold the decimal literal the source assigns, as a rational
  number; no floating-point arithmetic is performed by the code embedded here.
* `PetscInt` is an integer.
* PETSc handles (`PC`, `KSP`, `Mat`, `IS`) are opaque identifiers.  A handle
  member the constructor never assigns is `none`.
* `std::vector` is a list.
-/

set_option linter.dupNamespace false
set_option linter.unusedVariables false

namespace femus

/-! ## Types declared outside the header -/

/-- Modelled from the spec: the enumeration `PreconditionerType` is declared in a
header that is not part of the sources.  Section 9 calls it a solver-type
enumeration; the three enumerators named by the constructor are therefore
three distinct constructors (direct/multifrontal, incomplete factorization,
block-Jacobi), and `other` stands for every enumerator the header does not name. -/
inductive PreconditionerType where
  | MLU_PRECOND
  | ILU_PRECOND
  | BLOCK_JACOBI_PRECOND
  | other (tag : Nat)
  deriving DecidableEq, Repr

/-- Modelled from the spec: the enumeration `SolverType` is declared in a header
that is not part of the sources.  `PREONLY` is the only enumerator the header
names (the spec's "apply preconditioner once"); `other` stands for the rest. -/
inductive SolverType where
  | PREONLY
  | other (tag : Nat)
  deriving DecidableEq, Repr

/-- Modelled from the spec: class `mesh` is declared outside the header.  Only the
two members the constructor reads are kept: the process count `_nprocs` (an
integer, which covers a signed as well as an unsigned declaration) and the
value returned by `GetDimension()`. -/
structure mesh where
  _nprocs : Int
  GetDimension : Nat
  deriving DecidableEq, Repr

/-- Modelled from the spec: the base class `LinearEquationSolver` (the abstract
solver base of section 9) is declared outside the header.  Only the members
the derived constructor reads or writes are kept.  A value of this type is
the state left by the base-class constructor
`LinearEquationSolver(igrid, other_msh)`, whose body is outside the header. -/
structure LinearEquationSolver where
  _msh : mesh
  _preconditioner_type : PreconditionerType
  _solver_type : SolverType
  deriving DecidableEq, Repr

/-- Opaque PETSc preconditioner context. -/
abbrev PC := Nat
/-- Opaque PETSc Krylov context. -/
abbrev KSP := Nat
/-- Opaque PETSc matrix handle. -/
abbrev Mat := Nat
/-- Opaque PETSc index-set handle. -/
abbrev IS := Nat
/-- PETSc real scalar, holding the value of a decimal literal. -/
abbrev PetscReal := ℚ
/-- PETSc integer. -/
abbrev PetscInt := Int

/-! ## The class -/

/-- Data members of `GmresPetscLinearEquationSolver` (lines 73-87), on top of the
base-class sub-object. -/
structure GmresPetscLinearEquationSolver extends LinearEquationSolver where
  _pc : Option PC
  _ksp : Option KSP
  _rtol : PetscReal
  _abstol : PetscReal
  _dtol : PetscReal
  _maxits : PetscInt
  _indexai : List (List PetscInt)
  _indexai_init : Bool
  _isA : List IS
  _isB : List IS
  _Pmat : Option Mat
  _Pmat_is_initialized : Bool
  deriving DecidableEq

/-- The three block-local variables of the fine-level branch of the constructor
(lines 112-114): `dim = _msh->GetDimension()`, `base = pow(2,dim)` and
`exponent = 5 - dim` in `unsigned` arithmetic.  `base` is `none` when
`pow(2,dim)` does not fit an `unsigned`, where the conversion from `double`
has no defined result. -/
structure CtorLocals where
  dim : Nat
  base : Option Nat
  exponent : Nat
  deriving DecidableEq, Repr

namespace GmresPetscLinearEquationSolver

/-- The constructor `GmresPetscLinearEquationSolver(igrid, other_msh)`
(lines 98-126).  `parent` is the state left by the base-class constructor
`LinearEquationSolver(igrid, other_msh)`, `_msh` included.  The body first
runs the branch on `igrid` (lines 101-115), which assigns inherited members
and, on the fine-level side, computes three block-local variables; then it
assigns the tolerances and the two flags (lines 117-124).  The vector members
are default-constructed, the handle members are not assigned.  The result
pairs the constructed object with the block-local variables of the branch
(`none` when the branch did not declare them). -/
def GmresPetscLinearEquationSolver (igrid : Nat) (parent : LinearEquationSolver) :
    femus.GmresPetscLinearEquationSolver × Option CtorLocals :=
  let branch : LinearEquationSolver × Option CtorLocals :=
    if igrid = 0 then
      ({ parent with
          _preconditioner_type := PreconditionerType.MLU_PRECOND
          _solver_type := SolverType.PREONLY }, none)
    else
      let this1 : LinearEquationSolver :=
        if parent._msh._nprocs = 1 then
          { parent with _preconditioner_type := PreconditionerType.ILU_PRECOND }
        else
          { parent with _preconditioner_type := PreconditionerType.BLOCK_JACOBI_PRECOND }
      let dim := this1._msh.GetDimension % 2 ^ 32
      let base := if dim < 32 then some (2 ^ dim) else none
      let exponent := (5 + 2 ^ 32 - dim) % 2 ^ 32
      (this1, some { dim := dim, base := base, exponent := exponent })
  ({ toLinearEquationSolver := branch.1
     _pc := none
     _ksp := none
     _rtol := 1.e-8
     _abstol := 1.e-40
     _dtol := 1.e+50
     _maxits := 4
     _indexai := []
     _indexai_init := false
     _isA := []
     _isB := []
     _Pmat := none
     _Pmat_is_initialized := false }, branch.2)

/-! ### Teardown -/

/-- The address handed to `ISDestroy`: a position of `_isA` or a position of `_isB`. -/
inductive Slot where
  | isA (i : Nat)
  | isB (i : Nat)
  deriving DecidableEq, Repr

/-- A call issued by the body of the destructor: `this->clear()`, or
`ISDestroy(&v[i])` together with the handle stored at that position when the
call is made. -/
inductive Call where
  | clear
  | ISDestroy (slot : Slot) (handle : IS)
  deriving DecidableEq, Repr

/-- The position an `ISDestroy` call was given; `none` for `clear()`. -/
def Call.slot? : Call → Option Slot
  | Call.clear => none
  | Call.ISDestroy slot _ => some slot

/-- The positions passed to `ISDestroy` along a sequence of calls, in order. -/
def destroyedSlots (calls : List Call) : List Slot :=
  calls.filterMap Call.slot?

/-- The two routines the destructor calls and the header does not define:
the member function `clear()` (declared at line 54, body elsewhere) as a
transformer of the object, and PETSc's `ISDestroy`, which receives the address
of a handle and decides what that position holds afterwards. -/
structure Backend where
  clear : femus.GmresPetscLinearEquationSolver → femus.GmresPetscLinearEquationSolver
  ISDestroy : IS → IS

/-- One destroy loop, `for(unsigned i=0;i<v.size();i++){ ISDestroy(&v[i]); }`
(lines 132-134 and 136-138), started with counter value `i` and allowed to
test its condition `fuel` times.  The counter is an `unsigned`, so `i++` is
taken modulo `2 ^ 32`, while `v.size()` is not bounded by the counter.
Returns the calls issued, the vector as the calls left it, and whether the
loop was left. -/
def destroyLoop (ISDestroy : IS → IS) (slot : Nat → Slot) :
    Nat → Nat → List IS → List Call × List IS × Bool
  | 0, _, v => ([], v, false)
  | fuel + 1, i, v =>
    if h : i < v.length then
      let r := destroyLoop ISDestroy slot fuel ((i + 1) % 2 ^ 32) (v.set i (ISDestroy v[i]))
      (Call.ISDestroy (slot i) v[i] :: r.1, r.2)
    else
      ([], v, true)

/-- The destructor body (lines 129-140): `this->clear()`, then the destroy loop
over `_isA`, then the destroy loop over `_isB`.  Each loop may test its
condition `fuel` times.  Returns the calls issued in order, the object as
they left it, and whether the body ran to its end. -/
def destructor (env : Backend) (fuel : Nat) (s : femus.GmresPetscLinearEquationSolver) :
    List Call × femus.GmresPetscLinearEquationSolver × Bool :=
  let s1 := env.clear s
  let a := destroyLoop env.ISDestroy Slot.isA fuel 0 s1._isA
  if a.2.2 then
    let b := destroyLoop env.ISDestroy Slot.isB fuel 0 s1._isB
    (Call.clear :: (a.1 ++ b.1), { s1 with _isA := a.2.1, _isB := b.2.1 }, b.2.2)
  else
    (Call.clear :: a.1, { s1 with _isA := a.2.1 }, false)

/-- One `ISDestroy` call per position of `v`, in index order, each with the
handle stored at that position. -/
def destroyCalls (slot : Nat → Slot) (v : List IS) : List Call :=
  v.enum.map (fun p => Call.ISDestroy (slot p.1) p.2)

/-! ### Tolerances -/

/-- Modelled from the spec: the failures named by the error taxonomy of section 7;
the header declares none. -/
inductive Error where
  | InvalidPartitionError
  | InvalidToleranceError
  | BackendInitError
  deriving DecidableEq, Repr

/-- Modelled from the spec: `set_tolerances` is declared at lines 60-61 and its
body is not part of the sources.  Section 4.2: it "stores a per-level
tolerance tuple; valid for rtol,atol,divtol > 0 and maxIterations ≥ 1;
out-of-range values fail with InvalidToleranceError and leave prior
configuration unchanged".  The object holds the tuple of its own level in
`_rtol`, `_abstol`, `_dtol`, `_maxits`; the result is the outcome of the call
and the object after it. -/
def set_tolerances (s : femus.GmresPetscLinearEquationSolver)
    (rtol atol divtol : PetscReal) (maxits : Nat) (index : Nat) :
    Except Error Unit × femus.GmresPetscLinearEquationSolver :=
  if 0 < rtol ∧ 0 < atol ∧ 0 < divtol ∧ 1 ≤ maxits then
    (Except.ok (), { s with _rtol := rtol, _abstol := atol, _dtol := divtol, _maxits := maxits })
  else
    (Except.error Error.InvalidToleranceError, s)

/-! ### Sample values

Concrete inputs at which the theorems below are instantiated. -/

/-- State left by a base-class constructor on a one-process mesh of dimension 2. -/
def sampleParentSerial : LinearEquationSolver :=
  { _msh := { _nprocs := 1, GetDimension := 2 }
    _preconditioner_type := PreconditionerType.other 0
    _solver_type := SolverType.other 10 }

/-- State left by a base-class constructor on a four-process mesh of dimension 7. -/
def sampleParentParallel : LinearEquationSolver :=
  { _msh := { _nprocs := 4, GetDimension := 7 }
    _preconditioner_type := PreconditionerType.other 3
    _solver_type := SolverType.other 10 }

/-- A backend whose `clear()` drops the Krylov and preconditioner handles and the
cached-matrix flag, and whose `ISDestroy` leaves a null handle behind. -/
def sampleBackend : Backend :=
  { clear := fun s => { s with _pc := none, _ksp := none, _Pmat_is_initialized := false }
    ISDestroy := fun _ => 0 }

/-- A solver after one index build: two handles in `_isA`, one in `_isB`. -/
def sampleSolver : femus.GmresPetscLinearEquationSolver :=
  { (GmresPetscLinearEquationSolver 1 sampleParentSerial).1 with
    _indexai_init := true, _isA := [11, 12], _isB := [21] }

/-- A solver whose `_isA` holds `2 ^ 32` handles, one more than the largest
value of the `unsigned` loop counter. -/
def hugeSolver : femus.GmresPetscLinearEquationSolver :=
  { (GmresPetscLinearEquationSolver 1 sampleParentSerial).1 with
    _indexai_init := true, _isA := List.replicate (2 ^ 32) 7, _isB := [] }

/-! ## Construction -/

/-- C1: constructing the solver with grid level 0 selects the direct/multifrontal
preconditioner and the preconditioner-only solve, whatever the mesh (hence
whatever the process count) and whatever the base-class constructor left:
afterwards `_preconditioner_type = MLU_PRECOND` and `_solver_type = PREONLY`. -/
theorem ctor_level0_selects_MLU_PREONLY (parent : LinearEquationSolver) :
    (GmresPetscLinearEquationSolver 0 parent).1._preconditioner_type
        = PreconditionerType.MLU_PRECOND ∧
    (GmresPetscLinearEquationSolver 0 parent).1._solver_type = SolverType.PREONLY := by
  simp [GmresPetscLinearEquationSolver]

/-- C2: for every grid level `igrid > 0`, constructing the solver on a mesh with
`_nprocs = 1` selects incomplete-factorization preconditioning: afterwards
`_preconditioner_type = ILU_PRECOND`. -/
theorem ctor_fine_serial_selects_ILU (igrid : Nat) (parent : LinearEquationSolver)
    (hgrid : 0 < igrid) (hprocs : parent._msh._nprocs = 1) :
    (GmresPetscLinearEquationSolver igrid parent).1._preconditioner_type
        = PreconditionerType.ILU_PRECOND := by
  have h0 : igrid ≠ 0 := Nat.pos_iff_ne_zero.mp hgrid
  simp [GmresPetscLinearEquationSolver, h0, hprocs]

/-- Instance of C2: grid level 3 on the one-process sample mesh. -/
theorem ctor_fine_serial_selects_ILU_witness :
    (GmresPetscLinearEquationSolver 3 sampleParentSerial).1._preconditioner_type
        = PreconditionerType.ILU_PRECOND :=
  ctor_fine_serial_selects_ILU 3 sampleParentSerial (by decide) (by decide)

/-- C3: for every grid level `igrid > 0` and every process count `_nprocs > 1`,
construction selects block-Jacobi preconditioning,
`_preconditioner_type = BLOCK_JACOBI_PRECOND`; and the selected type is not
`BLOCK_JACOBI_PRECOND` when `igrid = 0` or `_nprocs = 1`. -/
theorem ctor_fine_parallel_selects_BLOCK_JACOBI (igrid : Nat) (parent : LinearEquationSolver) :
    (0 < igrid → 1 < parent._msh._nprocs →
      (GmresPetscLinearEquationSolver igrid parent).1._preconditioner_type
        = PreconditionerType.BLOCK_JACOBI_PRECOND) ∧
    (igrid = 0 ∨ parent._msh._nprocs = 1 →
      (GmresPetscLinearEquationSolver igrid parent).1._preconditioner_type
        ≠ PreconditionerType.BLOCK_JACOBI_PRECOND) := by
  refine ⟨fun hgrid hprocs => ?_, fun h => ?_⟩
  · have h0 : igrid ≠ 0 := Nat.pos_iff_ne_zero.mp hgrid
    have h1 : parent._msh._nprocs ≠ 1 := ne_of_gt hprocs
    simp [GmresPetscLinearEquationSolver, h0, h1]
  · by_cases h0 : igrid = 0
    · simp [GmresPetscLinearEquationSolver, h0]
    · have h1 : parent._msh._nprocs = 1 := h.resolve_left h0
      simp [GmresPetscLinearEquationSolver, h0, h1]

/-- Instance of C3: block-Jacobi at level 2 on four processes; not block-Jacobi
at level 0 on four processes, nor at level 2 on one process. -/
theorem ctor_fine_parallel_selects_BLOCK_JACOBI_witness :
    (GmresPetscLinearEquationSolver 2 sampleParentParallel).1._preconditioner_type
        = PreconditionerType.BLOCK_JACOBI_PRECOND ∧
    (GmresPetscLinearEquationSolver 0 sampleParentParallel).1._preconditioner_type
        ≠ PreconditionerType.BLOCK_JACOBI_PRECOND ∧
    (GmresPetscLinearEquationSolver 2 sampleParentSerial).1._preconditioner_type
        ≠ PreconditionerType.BLOCK_JACOBI_PRECOND :=
  ⟨(ctor_fine_parallel_selects_BLOCK_JACOBI 2 sampleParentParallel).1 (by decide) (by decide),
   (ctor_fine_parallel_selects_BLOCK_JACOBI 0 sampleParentParallel).2 (Or.inl rfl),
   (ctor_fine_parallel_selects_BLOCK_JACOBI 2 sampleParentSerial).2 (Or.inr rfl)⟩

/-- C7: for every grid level and every mesh a freshly constructed solver is in the
uninitialized state: `_indexai_init` is false, `_Pmat_is_initialized` is false,
and the containers `_indexai`, `_isA` and `_isB` are empty. -/
theorem ctor_fresh_solver_uninitialized (igrid : Nat) (parent : LinearEquationSolver) :
    (GmresPetscLinearEquationSolver igrid parent).1._indexai_init = false ∧
    (GmresPetscLinearEquationSolver igrid parent).1._Pmat_is_initialized = false ∧
    (GmresPetscLinearEquationSolver igrid parent).1._indexai = [] ∧
    (GmresPetscLinearEquationSolver igrid parent).1._isA = [] ∧
    (GmresPetscLinearEquationSolver igrid parent).1._isB = [] :=
  ⟨rfl, rfl, rfl, rfl, rfl⟩

/-- C10: for every grid level `igrid > 0` and every mesh the constructor leaves
`_solver_type` as the base-class constructor set it, whatever that value is;
at `igrid = 0` it is overwritten with `PREONLY`. -/
theorem ctor_fine_level_keeps_inherited_solver_type (igrid : Nat)
    (parent : LinearEquationSolver) :
    (0 < igrid →
      (GmresPetscLinearEquationSolver igrid parent).1._solver_type = parent._solver_type) ∧
    (GmresPetscLinearEquationSolver 0 parent).1._solver_type = SolverType.PREONLY := by
  refine ⟨fun hgrid => ?_, ?_⟩
  · have h0 : igrid ≠ 0 := Nat.pos_iff_ne_zero.mp hgrid
    simp only [GmresPetscLinearEquationSolver, h0, if_false]
    split_ifs <;> rfl
  · simp [GmresPetscLinearEquationSolver]

/-- Instance of C10: at level 3 the inherited solver type `other 10` survives on
one process and on four. -/
theorem ctor_fine_level_keeps_inherited_solver_type_witness :
    (GmresPetscLinearEquationSolver 3 sampleParentSerial).1._solver_type
        = SolverType.other 10 ∧
    (GmresPetscLinearEquationSolver 3 sampleParentParallel).1._solver_type
        = SolverType.other 10 :=
  ⟨(ctor_fine_level_keeps_inherited_solver_type 3 sampleParentSerial).1 (by decide),
   (ctor_fine_level_keeps_inherited_solver_type 3 sampleParentParallel).1 (by decide)⟩

/-! ## Tolerances -/

/-- C6: for every solver state and every level index, `set_tolerances` called with
`rtol = 0`, or with any of `rtol`, `atol`, `divtol` non-positive, or with
`maxits < 1`, fails with `InvalidToleranceError` and returns the object
unchanged (so `_rtol`, `_abstol`, `_dtol`, `_maxits` keep their values); when
`rtol, atol, divtol > 0` and `maxits ≥ 1` it succeeds and stores the tuple. -/
theorem set_tolerances_validates (s : femus.GmresPetscLinearEquationSolver)
    (rtol atol divtol : PetscReal) (maxits index : Nat) :
    (set_tolerances s 0 atol divtol maxits index
      = (Except.error Error.InvalidToleranceError, s)) ∧
    (rtol ≤ 0 ∨ atol ≤ 0 ∨ divtol ≤ 0 ∨ maxits < 1 →
      set_tolerances s rtol atol divtol maxits index
        = (Except.error Error.InvalidToleranceError, s)) ∧
    (0 < rtol → 0 < atol → 0 < divtol → 1 ≤ maxits →
      set_tolerances s rtol atol divtol maxits index
        = (Except.ok (),
            { s with _rtol := rtol, _abstol := atol, _dtol := divtol, _maxits := maxits })) := by
  refine ⟨?_, ?_, ?_⟩
  · simp [set_tolerances]
  · intro h
    have hbad : ¬ (0 < rtol ∧ 0 < atol ∧ 0 < divtol ∧ 1 ≤ maxits) := by
      rintro ⟨h1, h2, h3, h4⟩
      rcases h with h | h | h | h
      · exact absurd h1 (not_lt.2 h)
      · exact absurd h2 (not_lt.2 h)
      · exact absurd h3 (not_lt.2 h)
      · omega
    simp only [set_tolerances, hbad, if_false]
  · intro h1 h2 h3 h4
    simp only [set_tolerances, h1, h2, h3, h4, and_self, if_true]

/-- Instance of C6 on the sample solver: a negative `rtol` is rejected and the
object is returned as it was; a valid tuple is stored. -/
theorem set_tolerances_validates_witness :
    (set_tolerances sampleSolver (-1) (1 / 10 ^ 12) (10 ^ 4) 7 0
      = (Except.error Error.InvalidToleranceError, sampleSolver)) ∧
    (set_tolerances sampleSolver (1 / 10 ^ 6) (1 / 10 ^ 12) (10 ^ 4) 7 0
      = (Except.ok (),
          { sampleSolver with
            _rtol := 1 / 10 ^ 6, _abstol := 1 / 10 ^ 12, _dtol := 10 ^ 4, _maxits := 7 })) :=
  ⟨(set_tolerances_validates sampleSolver (-1) (1 / 10 ^ 12) (10 ^ 4) 7 0).2.1
      (Or.inl (by norm_num)),
   (set_tolerances_validates sampleSolver (1 / 10 ^ 6) (1 / 10 ^ 12) (10 ^ 4) 7 0).2.2
      (by norm_num) (by norm_num) (by norm_num) (by norm_num)⟩

/-! ## Teardown: the destroy loop -/

/-- A loop over fewer than `2 ^ 32` handles that was left has issued, from
counter value `i` on, one call per remaining position, in index order, each
with the handle the vector held there on entry. -/
theorem destroyLoop_calls_of_done (f : IS → IS) (slot : Nat → Slot) :
    ∀ (fuel i : Nat) (v : List IS), v.length < 2 ^ 32 →
      (destroyLoop f slot fuel i v).2.2 = true →
      (destroyLoop f slot fuel i v).1
        = ((v.drop i).enumFrom i).map (fun p => Call.ISDestroy (slot p.1) p.2) := by
  intro fuel
  induction fuel with
  | zero => intro i v _ hdone; simp [destroyLoop] at hdone
  | succ fuel ih =>
    intro i v hlen hdone
    by_cases h : i < v.length
    · have hmod : (i + 1) % 2 ^ 32 = i + 1 := Nat.mod_eq_of_lt (by omega)
      simp only [destroyLoop, h, dite_true, hmod] at hdone ⊢
      have hlen2 : (v.set i (f v[i])).length < 2 ^ 32 := by simpa using hlen
      rw [ih (i + 1) (v.set i (f v[i])) hlen2 hdone]
      rw [List.drop_set_of_lt _ _ (Nat.lt_succ_self i)]
      rw [List.drop_eq_getElem_cons h, List.enumFrom_cons, List.map_cons]
    · simp only [destroyLoop, h, dite_false]
      rw [List.drop_eq_nil_of_le (by omega)]
      rfl

/-- A loop over fewer than `2 ^ 32` handles is left as soon as it may test its
condition once more than there are positions remaining. -/
theorem destroyLoop_done (f : IS → IS) (slot : Nat → Slot) :
    ∀ (fuel i : Nat) (v : List IS), v.length < 2 ^ 32 → v.length - i < fuel →
      (destroyLoop f slot fuel i v).2.2 = true := by
  intro fuel
  induction fuel with
  | zero => intro i v _ hfuel; omega
  | succ fuel ih =>
    intro i v hlen hfuel
    by_cases h : i < v.length
    · have hmod : (i + 1) % 2 ^ 32 = i + 1 := Nat.mod_eq_of_lt (by omega)
      simp only [destroyLoop, h, dite_true, hmod]
      apply ih
      · simpa using hlen
      · simp only [List.length_set]; omega
    · simp only [destroyLoop, h, dite_false]

/-- Over `2 ^ 32` handles or more the counter never reaches the size: the loop is
never left, and every tested condition issues one more call. -/
theorem destroyLoop_never (f : IS → IS) (slot : Nat → Slot) :
    ∀ (fuel i : Nat) (v : List IS), 2 ^ 32 ≤ v.length → i < 2 ^ 32 →
      (destroyLoop f slot fuel i v).2.2 = false ∧
      (destroyLoop f slot fuel i v).1.length = fuel := by
  intro fuel
  induction fuel with
  | zero => intro i v _ _; simp [destroyLoop]
  | succ fuel ih =>
    intro i v hlen hi
    have h : i < v.length := by omega
    have hmod : (i + 1) % 2 ^ 32 < 2 ^ 32 := Nat.mod_lt _ (by norm_num)
    have hlen2 : 2 ^ 32 ≤ (v.set i (f v[i])).length := by simpa using hlen
    obtain ⟨h1, h2⟩ := ih ((i + 1) % 2 ^ 32) (v.set i (f v[i])) hlen2 hmod
    simp only [destroyLoop, h, dite_true, List.length_cons]
    exact ⟨h1, by rw [h2]⟩

/-- Over `2 ^ 32` handles or more the positions visited are the successive
counter values modulo `2 ^ 32`. -/
theorem destroyLoop_slots_wrapped (f : IS → IS) (slot : Nat → Slot) :
    ∀ (fuel j : Nat) (v : List IS), 2 ^ 32 ≤ v.length →
      destroyedSlots (destroyLoop f slot fuel (j % 2 ^ 32) v).1
        = (List.range' j fuel).map (fun k => slot (k % 2 ^ 32)) := by
  intro fuel
  induction fuel with
  | zero => intro j v _; simp [destroyLoop, destroyedSlots]
  | succ fuel ih =>
    intro j v hlen
    have hj : j % 2 ^ 32 < 2 ^ 32 := Nat.mod_lt _ (by norm_num)
    have h : j % 2 ^ 32 < v.length := by omega
    have hlen2 : 2 ^ 32 ≤ (v.set (j % 2 ^ 32) (f v[j % 2 ^ 32])).length := by
      simpa using hlen
    have hstep : (j % 2 ^ 32 + 1) % 2 ^ 32 = (j + 1) % 2 ^ 32 := by omega
    have hrec := ih (j + 1) (v.set (j % 2 ^ 32) (f v[j % 2 ^ 32])) hlen2
    simp only [destroyLoop, h, dite_true, hstep]
    simp only [destroyedSlots] at hrec ⊢
    rw [List.filterMap_cons_some
      (by rfl : Call.slot? (Call.ISDestroy (slot (j % 2 ^ 32)) v[j % 2 ^ 32])
        = some (slot (j % 2 ^ 32)))]
    rw [hrec, List.range'_succ, List.map_cons]

/-- Before the counter wraps, the `k`-th call of a loop started at `i` is
`ISDestroy` on position `i + k` with the handle the vector held there on
entry: earlier calls only touched earlier positions. -/
theorem destroyLoop_reads (f : IS → IS) (slot : Nat → Slot) :
    ∀ (fuel i k : Nat) (v : List IS), i + k < 2 ^ 32 → i + k < v.length → k < fuel →
      (destroyLoop f slot fuel i v).1[k]?
        = (v[i + k]?).map (fun h => Call.ISDestroy (slot (i + k)) h) := by
  intro fuel
  induction fuel with
  | zero => intro i k v _ _ hk; omega
  | succ fuel ih =>
    intro i k v hwrap hlen hk
    have h : i < v.length := by omega
    simp only [destroyLoop, h, dite_true]
    cases k with
    | zero => simp [List.getElem?_eq_getElem h]
    | succ k =>
      have hmod : (i + 1) % 2 ^ 32 = i + 1 := Nat.mod_eq_of_lt (by omega)
      rw [hmod]
      have hrec := ih (i + 1) k (v.set i (f v[i])) (by omega)
        (by simp only [List.length_set]; omega) (by omega)
      have hidx : i + (k + 1) = i + 1 + k := by omega
      rw [List.getElem?_cons_succ, hrec, hidx, List.getElem?_set_ne (by omega)]

/-- A destroy loop issues `ISDestroy` calls only. -/
theorem destroyLoop_no_clear (f : IS → IS) (slot : Nat → Slot) :
    ∀ (fuel i : Nat) (v : List IS), ∀ c ∈ (destroyLoop f slot fuel i v).1, c ≠ Call.clear := by
  intro fuel
  induction fuel with
  | zero => intro i v c hc; simp [destroyLoop] at hc
  | succ fuel ih =>
    intro i v c hc
    by_cases h : i < v.length
    · simp only [destroyLoop, h, dite_true, List.mem_cons] at hc
      rcases hc with rfl | hc
      · exact fun hne => Call.noConfusion hne
      · exact ih _ _ c hc
    · simp [destroyLoop, h] at hc

/-- From counter value 0, a loop over fewer than `2 ^ 32` handles that was left
has issued exactly `destroyCalls`. -/
theorem destroyLoop_calls_from_zero (f : IS → IS) (slot : Nat → Slot) (fuel : Nat)
    (v : List IS) (hlen : v.length < 2 ^ 32)
    (hdone : (destroyLoop f slot fuel 0 v).2.2 = true) :
    (destroyLoop f slot fuel 0 v).1 = destroyCalls slot v := by
  rw [destroyLoop_calls_of_done f slot fuel 0 v hlen hdone]
  rfl

/-- A loop started at 0 that was left ran over fewer than `2 ^ 32` handles. -/
theorem destroyLoop_bound_of_done (f : IS → IS) (slot : Nat → Slot) (fuel : Nat)
    (v : List IS) (hdone : (destroyLoop f slot fuel 0 v).2.2 = true) :
    v.length < 2 ^ 32 := by
  by_contra hlen
  have := (destroyLoop_never f slot fuel 0 v (by omega) (by norm_num)).1
  rw [hdone] at this
  exact Bool.noConfusion this

/-- The first pass of a loop started at 0 hands each position to `ISDestroy` with
the handle found there on entry. -/
theorem destroyLoop_reads_from_zero (f : IS → IS) (slot : Nat → Slot) (fuel k : Nat)
    (v : List IS) (hk : k < v.length) (hwrap : k < 2 ^ 32) (hfuel : k < fuel) :
    (destroyLoop f slot fuel 0 v).1[k]? = some (Call.ISDestroy (slot k) v[k]) := by
  have h := destroyLoop_reads f slot fuel 0 k v (by omega) (by omega) hfuel
  simp only [Nat.zero_add] at h
  rw [h, List.getElem?_eq_getElem hk]
  rfl

/-! ## Teardown: counting positions -/

/-- The positions named by `destroyCalls` are `0, 1, …, |v| - 1`. -/
theorem destroyedSlots_destroyCalls (slot : Nat → Slot) (v : List IS) :
    destroyedSlots (destroyCalls slot v) = (List.range v.length).map slot := by
  simp only [destroyedSlots, destroyCalls, List.filterMap_map]
  have : (Call.slot? ∘ fun p : Nat × IS => Call.ISDestroy (slot p.1) p.2)
      = fun p => some (slot p.1) := by
    funext p; rfl
  rw [this]
  rw [← List.enum_map_fst v, List.map_map]
  exact List.filterMap_eq_map _ ▸ rfl

/-- Positions of a complete teardown: those of `_isA`, then those of `_isB`. -/
theorem destroyedSlots_expected (A B : List IS) :
    destroyedSlots (Call.clear :: (destroyCalls Slot.isA A ++ destroyCalls Slot.isB B))
      = (List.range A.length).map Slot.isA ++ (List.range B.length).map Slot.isB := by
  have h := destroyedSlots_destroyCalls Slot.isA A
  have h2 := destroyedSlots_destroyCalls Slot.isB B
  simp only [destroyedSlots] at h h2 ⊢
  rw [List.filterMap_cons_none (by rfl), List.filterMap_append, h, h2]

/-- Each position of `_isA` occurs once among the positions of a complete teardown. -/
theorem count_isA_expected (n m i : Nat) (hi : i < n) :
    List.count (Slot.isA i) ((List.range n).map Slot.isA ++ (List.range m).map Slot.isB)
      = 1 := by
  have hinj : Function.Injective Slot.isA := fun a b h => Slot.isA.inj h
  have h1 : List.count (Slot.isA i) ((List.range n).map Slot.isA) = 1 := by
    rw [List.count_map_of_injective _ _ hinj]
    exact List.count_eq_one_of_mem (List.nodup_range n) (List.mem_range.2 hi)
  have h2 : List.count (Slot.isA i) ((List.range m).map Slot.isB) = 0 := by
    apply List.count_eq_zero_of_not_mem
    simp
  rw [List.count_append, h1, h2]

/-- Each position of `_isB` occurs once among the positions of a complete teardown. -/
theorem count_isB_expected (n m i : Nat) (hi : i < m) :
    List.count (Slot.isB i) ((List.range n).map Slot.isA ++ (List.range m).map Slot.isB)
      = 1 := by
  have hinj : Function.Injective Slot.isB := fun a b h => Slot.isB.inj h
  have h1 : List.count (Slot.isB i) ((List.range m).map Slot.isB) = 1 := by
    rw [List.count_map_of_injective _ _ hinj]
    exact List.count_eq_one_of_mem (List.nodup_range m) (List.mem_range.2 hi)
  have h2 : List.count (Slot.isB i) ((List.range n).map Slot.isA) = 0 := by
    apply List.count_eq_zero_of_not_mem
    simp
  rw [List.count_append, h1, h2]

/-- A counter running modulo `M` through `M + 1` values meets position 0 twice. -/
theorem count_first_slot_wrapped (M : Nat) (hM : 0 < M) :
    List.count (Slot.isA 0) ((List.range' 0 (M + 1)).map (fun k => Slot.isA (k % M))) = 2 := by
  have hinj : Function.Injective Slot.isA := fun a b h => Slot.isA.inj h
  have hcongr : (List.range' 0 M).map (fun k => Slot.isA (k % M))
      = (List.range' 0 M).map Slot.isA := by
    apply List.map_congr_left
    intro k hk
    have hk2 : k < M := by
      have := (List.mem_range'_1.1 hk).2
      omega
    rw [Nat.mod_eq_of_lt hk2]
  have h1 : List.count (Slot.isA 0) ((List.range' 0 M).map Slot.isA) = 1 := by
    rw [List.count_map_of_injective _ _ hinj]
    exact List.count_eq_one_of_mem (List.nodup_range' 0 M)
      (List.mem_range'_1.2 ⟨le_refl 0, by omega⟩)
  rw [List.range'_concat, List.map_append, List.count_append, hcongr, h1]
  simp

/-- An entry found in a list is found at the same index after appending. -/
theorem getElem?_append_of_eq_some {α : Type} (l l2 : List α) (k : Nat) (x : α)
    (h : l[k]? = some x) : (l ++ l2)[k]? = some x := by
  obtain ⟨hk, _⟩ := List.getElem?_eq_some_iff.1 h
  rw [List.getElem?_append_left hk, h]

/-! ## Teardown: the destructor -/

/-- C5 (as amended): for every solver state in which `_isA` and `_isB`, as
`clear()` leaves them, each hold fewer than `2 ^ 32` handles, teardown runs
to its end (once each loop may test its condition more often than there are
handles) and destroys every index-set handle exactly once: after `clear()` it
issues `ISDestroy` for each position of `_isA` in index order, then for each
position of `_isB` in index order, `|_isA| + |_isB|` calls in total, every
position occurring exactly once. -/
theorem destructor_destroys_each_position_once (env : Backend) (fuel : Nat)
    (s : femus.GmresPetscLinearEquationSolver)
    (hA : (env.clear s)._isA.length < 2 ^ 32) (hB : (env.clear s)._isB.length < 2 ^ 32)
    (hfuelA : (env.clear s)._isA.length < fuel) (hfuelB : (env.clear s)._isB.length < fuel) :
    (destructor env fuel s).2.2 = true ∧
    (destructor env fuel s).1
      = Call.clear ::
          (destroyCalls Slot.isA (env.clear s)._isA ++ destroyCalls Slot.isB (env.clear s)._isB) ∧
    destroyedSlots (destructor env fuel s).1
      = (List.range (env.clear s)._isA.length).map Slot.isA
          ++ (List.range (env.clear s)._isB.length).map Slot.isB ∧
    (destroyedSlots (destructor env fuel s).1).length
      = (env.clear s)._isA.length + (env.clear s)._isB.length ∧
    (∀ i, i < (env.clear s)._isA.length →
      List.count (Slot.isA i) (destroyedSlots (destructor env fuel s).1) = 1) ∧
    (∀ i, i < (env.clear s)._isB.length →
      List.count (Slot.isB i) (destroyedSlots (destructor env fuel s).1) = 1) := by
  have hdoneA := destroyLoop_done env.ISDestroy Slot.isA fuel 0 _ hA (by omega)
  have hdoneB := destroyLoop_done env.ISDestroy Slot.isB fuel 0 _ hB (by omega)
  have hcallsA := destroyLoop_calls_from_zero env.ISDestroy Slot.isA fuel _ hA hdoneA
  have hcallsB := destroyLoop_calls_from_zero env.ISDestroy Slot.isB fuel _ hB hdoneB
  have htrace : (destructor env fuel s).1
      = Call.clear ::
          (destroyCalls Slot.isA (env.clear s)._isA
            ++ destroyCalls Slot.isB (env.clear s)._isB) := by
    simp only [destructor, hdoneA, if_true, hcallsA, hcallsB]
  have hdone : (destructor env fuel s).2.2 = true := by
    simp only [destructor, hdoneA, if_true, hdoneB]
  have hslots := destroyedSlots_expected (env.clear s)._isA (env.clear s)._isB
  rw [← htrace] at hslots
  refine ⟨hdone, htrace, hslots, ?_, ?_, ?_⟩
  · rw [hslots]; simp
  · intro i hi; rw [hslots]; exact count_isA_expected _ _ i hi
  · intro i hi; rw [hslots]; exact count_isB_expected _ _ i hi

/-- Instance of C5 (as amended): a solver holding two handles in `_isA` and one in
`_isB` is torn down by `clear()` followed by three `ISDestroy` calls. -/
theorem destructor_destroys_each_position_once_witness :
    (destructor sampleBackend 3 sampleSolver).2.2 = true ∧
    (destructor sampleBackend 3 sampleSolver).1
      = [Call.clear, Call.ISDestroy (Slot.isA 0) 11, Call.ISDestroy (Slot.isA 1) 12,
          Call.ISDestroy (Slot.isB 0) 21] :=
  ⟨(destructor_destroys_each_position_once sampleBackend 3 sampleSolver
      (by decide) (by decide) (by decide) (by decide)).1,
   (destructor_destroys_each_position_once sampleBackend 3 sampleSolver
      (by decide) (by decide) (by decide) (by decide)).2.1⟩

/-- Counterexample to C5 as stated: on a solver owning `2 ^ 32` handles in `_isA`
(and none in `_isB`) the teardown is never finished, whatever the number of
iterations allowed; after `2 ^ 32 + 1` iterations it has issued
`2 ^ 32 + 1` `ISDestroy` calls, more than the `2 ^ 32` handles owned, and
position 0 of `_isA` has been handed to `ISDestroy` twice. -/
theorem destructor_never_ends_on_huge_isA :
    hugeSolver._isA.length + hugeSolver._isB.length = 2 ^ 32 ∧
    (∀ fuel, (destructor sampleBackend fuel hugeSolver).2.2 = false) ∧
    (destroyedSlots (destructor sampleBackend (2 ^ 32 + 1) hugeSolver).1).length
      = 2 ^ 32 + 1 ∧
    List.count (Slot.isA 0) (destroyedSlots (destructor sampleBackend (2 ^ 32 + 1) hugeSolver).1)
      = 2 := by
  have hA : (sampleBackend.clear hugeSolver)._isA = List.replicate (2 ^ 32) 7 := rfl
  have hlen : 2 ^ 32 ≤ (sampleBackend.clear hugeSolver)._isA.length := by
    rw [hA, List.length_replicate]
  have hnever : ∀ fuel,
      (destroyLoop sampleBackend.ISDestroy Slot.isA fuel 0
        (sampleBackend.clear hugeSolver)._isA).2.2 = false :=
    fun fuel => (destroyLoop_never _ _ fuel 0 _ hlen (by norm_num)).1
  have hslots : ∀ fuel, destroyedSlots (destructor sampleBackend fuel hugeSolver).1
      = (List.range' 0 fuel).map (fun k => Slot.isA (k % 2 ^ 32)) := by
    intro fuel
    have h := destroyLoop_slots_wrapped sampleBackend.ISDestroy Slot.isA fuel 0 _ hlen
    rw [Nat.zero_mod] at h
    simp only [destructor, hnever fuel]
    rw [← h]
    rfl
  refine ⟨?_, ?_, ?_, ?_⟩
  · have hA0 : hugeSolver._isA = List.replicate (2 ^ 32) 7 := rfl
    have hB0 : hugeSolver._isB = [] := rfl
    rw [hA0, hB0, List.length_replicate, List.length_nil, Nat.add_zero]
  · intro fuel
    simp only [destructor, hnever fuel]
    rfl
  · rw [hslots, List.length_map, List.length_range']
  · rw [hslots]
    exact count_first_slot_wrapped (2 ^ 32) (by norm_num)

/-- C8: for every solver state, every backend and every number of iterations
allowed, the calls issued by the destructor begin with `clear()` and contain
`clear()` exactly once, so it precedes every `ISDestroy`; the handle handed
to `ISDestroy` at each position of the first pass over `_isA` is the one
`clear()` left there; and whenever the body runs to its end, the calls after
`clear()` are one `ISDestroy` per position of `_isA`, then of `_isB`, with
the handles exactly as `clear()` left them. -/
theorem destructor_clear_once_before_destroys (env : Backend) (fuel : Nat)
    (s : femus.GmresPetscLinearEquationSolver) :
    (destructor env fuel s).1.head? = some Call.clear ∧
    List.count Call.clear (destructor env fuel s).1 = 1 ∧
    (∀ k (hk : k < (env.clear s)._isA.length), k < 2 ^ 32 → k < fuel →
      (destructor env fuel s).1.tail[k]?
        = some (Call.ISDestroy (Slot.isA k) ((env.clear s)._isA[k]))) ∧
    ((destructor env fuel s).2.2 = true →
      (destructor env fuel s).1.tail
        = destroyCalls Slot.isA (env.clear s)._isA
            ++ destroyCalls Slot.isB (env.clear s)._isB) := by
  have hnoA := destroyLoop_no_clear env.ISDestroy Slot.isA fuel 0 (env.clear s)._isA
  have hnoB := destroyLoop_no_clear env.ISDestroy Slot.isB fuel 0 (env.clear s)._isB
  have hreads := fun k hk hw hf =>
    destroyLoop_reads_from_zero env.ISDestroy Slot.isA fuel k (env.clear s)._isA hk hw hf
  cases hdoneA : (destroyLoop env.ISDestroy Slot.isA fuel 0 (env.clear s)._isA).2.2 with
  | false =>
    simp only [destructor, hdoneA, Bool.false_eq_true, if_false]
    refine ⟨rfl, ?_, ?_, ?_⟩
    · rw [List.count_cons_self, List.count_eq_zero_of_not_mem (fun hc => hnoA _ hc rfl)]
    · intro k hk hw hf
      exact hreads k hk hw hf
    · intro h
      exact h.elim
  | true =>
    simp only [destructor, hdoneA, if_true]
    refine ⟨rfl, ?_, ?_, ?_⟩
    · have hnot : Call.clear ∉
          (destroyLoop env.ISDestroy Slot.isA fuel 0 (env.clear s)._isA).1
            ++ (destroyLoop env.ISDestroy Slot.isB fuel 0 (env.clear s)._isB).1 := by
        intro hc
        rcases List.mem_append.1 hc with hc | hc
        · exact hnoA _ hc rfl
        · exact hnoB _ hc rfl
      rw [List.count_cons_self, List.count_eq_zero_of_not_mem hnot]
    · intro k hk hw hf
      exact getElem?_append_of_eq_some _ _ k _ (hreads k hk hw hf)
    · intro hdoneB
      have hA := destroyLoop_bound_of_done _ _ _ _ hdoneA
      have hB := destroyLoop_bound_of_done _ _ _ _ hdoneB
      rw [List.tail_cons, destroyLoop_calls_from_zero _ _ _ _ hA hdoneA,
        destroyLoop_calls_from_zero _ _ _ _ hB hdoneB]

/-- Instance of C8 on the sample solver: the second call after `clear()` destroys
position 1 of `_isA` with the handle stored there, and the completed teardown
issues, after `clear()`, the three `ISDestroy` calls in order. -/
theorem destructor_clear_once_before_destroys_witness :
    (destructor sampleBackend 3 sampleSolver).1.tail[1]?
      = some (Call.ISDestroy (Slot.isA 1) 12) ∧
    (destructor sampleBackend 3 sampleSolver).1.tail
      = [Call.ISDestroy (Slot.isA 0) 11, Call.ISDestroy (Slot.isA 1) 12,
          Call.ISDestroy (Slot.isB 0) 21] :=
  ⟨(destructor_clear_once_before_destroys sampleBackend 3 sampleSolver).2.2.1 1
      (by decide) (by decide) (by decide),
   (destructor_clear_once_before_destroys sampleBackend 3 sampleSolver).2.2.2 (by decide)⟩

end GmresPetscLinearEquationSolver

end femus
